import Mathlib

/-!
Verification development for the ComPWA documentation repository
(`compwa.github.io`).

The repository is a corpus of Jupyter notebooks built on a computer-algebra
system.  Its specification documents one recurring computational pattern:
an immutable algebraic expression graph, a substitution engine that fixes
parameters and collapses constant subtrees, a code generator that emits an
array-oriented numerical function, and a differentiator producing derivative
graphs.  These components live in external libraries, so they are modelled
here from the specification, while the notebook-level code (the
`DynamicsExpression` container, the Breit-Wigner constructors,
`create_symbol_matrix`, the build and test configuration) is embedded
directly from the source files.
-/

/-- Complex numbers with rational real and imaginary part.  They stand for
the numeric literals of the expression graph (the notebooks substitute
decimal constants such as `0.980` and the imaginary unit `I`). -/
structure CC where
  re : ℚ
  im : ℚ
deriving DecidableEq

/-- Componentwise addition. -/
def CC.add (x y : CC) : CC := ⟨x.re + y.re, x.im + y.im⟩

/-- Additive inverse. -/
def CC.neg (x : CC) : CC := ⟨-x.re, -x.im⟩

/-- Complex multiplication. -/
def CC.mul (x y : CC) : CC := ⟨x.re * y.re - x.im * y.im, x.re * y.im + x.im * y.re⟩

/-- Complex inverse via the conjugate; the inverse of `0` is `0`, matching
the junk value of `Complex.inv` at `0`. -/
def CC.inv (x : CC) : CC :=
  ⟨x.re / (x.re * x.re + x.im * x.im), -x.im / (x.re * x.re + x.im * x.im)⟩

/-- Complex division. -/
def CC.div (x y : CC) : CC := x.mul y.inv

/-- Natural powers by iterated multiplication. -/
def CC.pow (x : CC) : Nat → CC
  | 0 => ⟨1, 0⟩
  | n + 1 => x.mul (CC.pow x n)

/-- The imaginary unit. -/
def CC.I : CC := ⟨0, 1⟩

/-- Zero. -/
def CC.zero : CC := ⟨0, 0⟩

/-- One. -/
def CC.one : CC := ⟨1, 0⟩

/-- Modelled from the spec: the expression graph, an "immutable tree of typed
nodes (symbols, numeric literals, n-ary operators, functions) representing an
algebraic formula".  The operators are the ones the notebooks build
Breit-Wigner formulas from: sum, product, negation, natural power, division,
with complex numeric leaves. -/
inductive SymExpr where
  | sym (name : String)
  | num (c : CC)
  | add (a b : SymExpr)
  | mul (a b : SymExpr)
  | neg (a : SymExpr)
  | pow (a : SymExpr) (n : Nat)
  | div (a b : SymExpr)
deriving DecidableEq

instance : Inhabited SymExpr := ⟨SymExpr.num CC.zero⟩

/-- Difference `a - b` as built by the notebooks (`a + (-b)`). -/
def SymExpr.sub (a b : SymExpr) : SymExpr := .add a (.neg b)

/-- Does the symbol `x` occur (free) in the graph? -/
def SymExpr.occurs (x : String) : SymExpr → Bool
  | .sym name => name == x
  | .num _ => false
  | .add a b => a.occurs x || b.occurs x
  | .mul a b => a.occurs x || b.occurs x
  | .neg a => a.occurs x
  | .pow a _ => a.occurs x
  | .div a b => a.occurs x || b.occurs x

/-- The list of symbol names occurring in the graph (with repetitions). -/
def SymExpr.symList : SymExpr → List String
  | .sym name => [name]
  | .num _ => []
  | .add a b => a.symList ++ b.symList
  | .mul a b => a.symList ++ b.symList
  | .neg a => a.symList
  | .pow a _ => a.symList
  | .div a b => a.symList ++ b.symList

/-- A graph with no symbols at all (a constant-only subtree). -/
def SymExpr.noSymbols : SymExpr → Bool
  | .sym _ => false
  | .num _ => true
  | .add a b => a.noSymbols && b.noSymbols
  | .mul a b => a.noSymbols && b.noSymbols
  | .neg a => a.noSymbols
  | .pow a _ => a.noSymbols
  | .div a b => a.noSymbols && b.noSymbols

/-- Is the root node a numeric literal? -/
def SymExpr.isNumNode : SymExpr → Bool
  | .num _ => true
  | _ => false

/-- All subtrees of a graph, the graph itself included. -/
def SymExpr.subtrees : SymExpr → List SymExpr
  | .sym name => [.sym name]
  | .num c => [.num c]
  | .add a b => .add a b :: (a.subtrees ++ b.subtrees)
  | .mul a b => .mul a b :: (a.subtrees ++ b.subtrees)
  | .neg a => .neg a :: a.subtrees
  | .pow a n => .pow a n :: a.subtrees
  | .div a b => .div a b :: (a.subtrees ++ b.subtrees)

/-- Smart constructor for sums: a sum of two numeric literals is collapsed
into a single numeric node. -/
def mkAdd : SymExpr → SymExpr → SymExpr
  | .num a, .num b => .num (a.add b)
  | a, b => .add a b

/-- Smart constructor for products. -/
def mkMul : SymExpr → SymExpr → SymExpr
  | .num a, .num b => .num (a.mul b)
  | a, b => .mul a b

/-- Smart constructor for negation. -/
def mkNeg : SymExpr → SymExpr
  | .num a => .num a.neg
  | a => .neg a

/-- Smart constructor for powers. -/
def mkPow : SymExpr → Nat → SymExpr
  | .num a, n => .num (a.pow n)
  | a, n => .pow a n

/-- Smart constructor for quotients. -/
def mkDiv : SymExpr → SymExpr → SymExpr
  | .num a, .num b => .num (a.div b)
  | a, b => .div a b

/-- Bottom-up collapse of every constant-only subtree into a single numeric
node. -/
def collapse : SymExpr → SymExpr
  | .sym name => .sym name
  | .num c => .num c
  | .add a b => mkAdd (collapse a) (collapse b)
  | .mul a b => mkMul (collapse a) (collapse b)
  | .neg a => mkNeg (collapse a)
  | .pow a n => mkPow (collapse a) n
  | .div a b => mkDiv (collapse a) (collapse b)

/-- First binding of `x` in an association list of replacements. -/
def lookupSym (x : String) : List (String × SymExpr) → Option SymExpr
  | [] => none
  | (y, r) :: rest => if y = x then some r else lookupSym x rest

/-- Modelled from the spec: the substitution engine, which "produces a new
graph with designated symbols replaced by constants or sub-graphs, collapsing
any resulting constant-only subtrees" (the `subs`/`xreplace` calls of the
notebooks).  Designated symbols are replaced simultaneously; every node of
the result, the inserted replacements included, is rebuilt with the
collapsing smart constructors. -/
def subs (e : SymExpr) (σ : List (String × SymExpr)) : SymExpr :=
  match e with
  | .sym name =>
    match lookupSym name σ with
    | some r => collapse r
    | none => .sym name
  | .num c => .num c
  | .add a b => mkAdd (subs a σ) (subs b σ)
  | .mul a b => mkMul (subs a σ) (subs b σ)
  | .neg a => mkNeg (subs a σ)
  | .pow a n => mkPow (subs a σ) n
  | .div a b => mkDiv (subs a σ) (subs b σ)

/-- Scalar semantics of a graph: the value of the formula at an assignment
of the symbols. -/
def evalExpr : SymExpr → (String → CC) → CC
  | .sym name, env => env name
  | .num c, _ => c
  | .add a b, env => (evalExpr a env).add (evalExpr b env)
  | .mul a b, env => (evalExpr a env).mul (evalExpr b env)
  | .neg a, env => (evalExpr a env).neg
  | .pow a n, env => (evalExpr a env).pow n
  | .div a b, env => (evalExpr a env).div (evalExpr b env)

/-- Modelled from the spec: the source text emitted by the code generator
(`lambdify` / `create_function`), a small array-oriented target language.
Array operators act on whole arrays; a scalar constant is broadcast. -/
inductive ArrExpr where
  | const (c : CC)
  | arg (name : String)
  | add (a b : ArrExpr)
  | mul (a b : ArrExpr)
  | neg (a : ArrExpr)
  | pow (a : ArrExpr) (n : Nat)
  | div (a b : ArrExpr)

/-- Modelled from the spec: the code generator "walks a graph and emits a
callable numerical function (or source text) that evaluates the formula
element-wise over array-valued inputs". -/
def lambdify : SymExpr → ArrExpr
  | .sym name => .arg name
  | .num c => .const c
  | .add a b => .add (lambdify a) (lambdify b)
  | .mul a b => .mul (lambdify a) (lambdify b)
  | .neg a => .neg (lambdify a)
  | .pow a n => .pow (lambdify a) n
  | .div a b => .div (lambdify a) (lambdify b)

/-- Array semantics of the emitted code: every operator is a whole-array
operation (`zipWith`/`map`, as in the numpy backend), constants are broadcast
to the common input length `n`. -/
def runArr (inputs : String → List CC) (n : Nat) : ArrExpr → List CC
  | .const c => List.replicate n c
  | .arg name => inputs name
  | .add a b => List.zipWith CC.add (runArr inputs n a) (runArr inputs n b)
  | .mul a b => List.zipWith CC.mul (runArr inputs n a) (runArr inputs n b)
  | .neg a => (runArr inputs n a).map CC.neg
  | .pow a k => (runArr inputs n a).map (fun x => x.pow k)
  | .div a b => List.zipWith CC.div (runArr inputs n a) (runArr inputs n b)

/-- The scalar assignment read off from the `i`-th entries of the input
arrays. -/
def envAt (inputs : String → List CC) (i : Nat) : String → CC :=
  fun name => ((inputs name)[i]?).getD CC.zero

/-- Every input array a graph actually reads has length `n`. -/
def lensOK (e : SymExpr) (inputs : String → List CC) (n : Nat) : Bool :=
  e.symList.all fun name => (inputs name).length == n

/-- A parameter valuation as a substitution map of numeric literals. -/
def constSubst (ps : List (String × CC)) : List (String × SymExpr) :=
  ps.map fun p => (p.1, SymExpr.num p.2)

/-- First value bound to `x` in a parameter valuation. -/
def lookupConst (x : String) : List (String × CC) → Option CC
  | [] => none
  | (y, c) :: rest => if y = x then some c else lookupConst x rest

/-- Input arrays extended with one broadcast array per parameter value, as
when the generated function receives the parameter values as arguments. -/
def withParams (ps : List (String × CC)) (inputs : String → List CC) (n : Nat) :
    String → List CC :=
  fun name =>
    match lookupConst name ps with
    | some c => List.replicate n c
    | none => inputs name

/-- The value of a numeric literal as a complex number. -/
noncomputable def CC.toComplex (c : CC) : ℂ := (c.re : ℂ) + (c.im : ℂ) * Complex.I

/-- Analytic semantics of a graph over `ℂ`, used to state what the
differentiator's output graphs represent. -/
noncomputable def evalC : SymExpr → (String → ℂ) → ℂ
  | .sym name, env => env name
  | .num c, _ => c.toComplex
  | .add a b, env => evalC a env + evalC b env
  | .mul a b, env => evalC a env * evalC b env
  | .neg a, env => -evalC a env
  | .pow a n, env => evalC a env ^ n
  | .div a b, env => evalC a env / evalC b env

/-- Modelled from the spec: the differentiator, which "given a graph and an
ordered list of variables, produces new graphs representing partial
derivatives".  One derivative graph, by the textbook rules. -/
def derivative (x : String) : SymExpr → SymExpr
  | .sym name => .num (if name = x then CC.one else CC.zero)
  | .num _ => .num CC.zero
  | .add a b => .add (derivative x a) (derivative x b)
  | .mul a b => .add (.mul (derivative x a) b) (.mul a (derivative x b))
  | .neg a => .neg (derivative x a)
  | .pow a n => .mul (.num ⟨(n : ℚ), 0⟩) (.mul (.pow a (n - 1)) (derivative x a))
  | .div a b =>
    .div (SymExpr.sub (.mul (derivative x a) b) (.mul a (derivative x b))) (.pow b 2)

/-- Modelled from the spec: the differentiator applied to an ordered list of
variables; the `k`-th output graph is the partial derivative with respect to
the `k`-th variable. -/
def differentiate (e : SymExpr) (vars : List String) : List SymExpr :=
  vars.map fun x => derivative x e

/-- The graph is differentiable at the assignment: every denominator
evaluates to a nonzero value there. -/
def DenomsNonzero (env : String → ℂ) : SymExpr → Prop
  | .sym _ => True
  | .num _ => True
  | .add a b => DenomsNonzero env a ∧ DenomsNonzero env b
  | .mul a b => DenomsNonzero env a ∧ DenomsNonzero env b
  | .neg a => DenomsNonzero env a
  | .pow a _ => DenomsNonzero env a
  | .div a b => DenomsNonzero env a ∧ DenomsNonzero env b ∧ evalC b env ≠ 0

/-- Wrap a string in literal braces, as the notebook's f-string
interpolations `f"m_{{{...}}}"` do. -/
def braced (s : String) : String := "\x7b" ++ s ++ "\x7d"

/-- A particle as used by the builder functions of the composition notebook:
only its LaTeX label and spin are read. -/
structure Particle where
  latex : String
  spin : Nat
deriving DecidableEq

/-- The `StateTransitionGraph` of the absent `helpers` module, abstracted to
the two accessors the notebook code reads: `determine_attached_final_state`
and `get_edge_props`. -/
structure StateTransitionGraph where
  attachedFinalState : Nat → List Nat
  edgeProps : Nat → Particle

/-- A Python value stored in the `expression` attribute of a
`DynamicsExpression`: either an already-evaluated sympy expression or a
Python function of three symbols (such as `relativistic_breit_wigner`). -/
inductive PyVal where
  | expr (e : SymExpr)
  | func3 (f : SymExpr → SymExpr → SymExpr → SymExpr)

/-- A Python value stored in the `variables` attribute: either an actual
tuple or a bare symbol (the notebook writes `variables=(mass)`, which is not
a one-element tuple). -/
inductive VarsField where
  | tuple (ts : List SymExpr)
  | single (s : SymExpr)

/-- The Python `TypeError` raised when unpacking a non-iterable or calling a
non-callable, and the `FrozenInstanceError` raised by an attrs frozen class
on attribute assignment. -/
inductive PyError where
  | typeError
  | frozenInstanceError
deriving DecidableEq

/-- The frozen `DynamicsExpression` container of the composition notebook:
`variables`, `parameters` and the dynamics `expression`. -/
structure DynamicsExpression where
  vars : VarsField
  parameters : List SymExpr
  expression : PyVal

/-- The attribute names of `DynamicsExpression`. -/
inductive DynField where
  | varsField
  | parametersField
  | expressionField

/-- Attribute assignment on the `@frozen` (attrs) class `DynamicsExpression`:
the generated `__setattr__` raises `FrozenInstanceError` unconditionally, so
no field can ever be reassigned. -/
def DynamicsExpression.setattr (_ : DynamicsExpression) (_ : DynField) (_ : PyVal) :
    Except PyError DynamicsExpression :=
  .error .frozenInstanceError

/-- The method `DynamicsExpression.substitute`, embedded from the notebook:
`return self.expression(*self.variables, *self.parameters)`.  Unpacking
`*self.variables` raises `TypeError` when the field is a bare symbol, and the
call raises `TypeError` when `expression` holds a sympy expression instead of
a callable; a 3-argument callable succeeds exactly on 3 arguments. -/
def DynamicsExpression.substitute (d : DynamicsExpression) : Except PyError SymExpr :=
  match d.vars with
  | .single _ => .error .typeError
  | .tuple vs =>
    match d.expression with
    | .expr _ => .error .typeError
    | .func3 f =>
      match vs ++ d.parameters with
      | [a, b, c] => .ok (f a b c)
      | _ => .error .typeError

/-- Does `substitute` have everything it needs: a genuine argument tuple, a
callable `expression`, and exactly three arguments to pass it? -/
def DynamicsExpression.canCall (d : DynamicsExpression) : Bool :=
  match d.vars with
  | .single _ => false
  | .tuple vs =>
    match d.expression with
    | .expr _ => false
    | .func3 _ => (vs ++ d.parameters).length == 3

/-- The function `relativistic_breit_wigner`, embedded from the composition notebook:
`gamma0 * mass0 / (mass0**2 - mass**2 - gamma0 * mass0 * sp.I)`. -/
def relativistic_breit_wigner (mass mass0 gamma0 : SymExpr) : SymExpr :=
  .div (.mul gamma0 mass0)
    (SymExpr.sub (SymExpr.sub (.pow mass0 2) (.pow mass 2))
      (.mul (.mul gamma0 mass0) (.num CC.I)))

/-- The class method `RelativisticBreitWigner.eval` of the class-based notebook
`adr/002/function.ipynb`: the same Breit-Wigner formula read off from the
argument list. -/
def RelativisticBreitWigner.eval (args : List SymExpr) : SymExpr :=
  .div (.mul (args.getD 2 default) (args.getD 1 default))
    (SymExpr.sub
      (SymExpr.sub (.pow (args.getD 1 default) 2) (.pow (args.getD 0 default) 2))
      (.mul (.mul (args.getD 2 default) (args.getD 1 default)) (.num CC.I)))

/-- Constructing `RelativisticBreitWigner(mass, mass0, gamma0)`: a sympy
`Function` evaluates its `eval` class method on construction. -/
def RelativisticBreitWigner.make (mass mass0 gamma0 : SymExpr) : SymExpr :=
  RelativisticBreitWigner.eval [mass, mass0, gamma0]

/-- The builder `relativistic_breit_wigner_from_graph`, embedded from the composition
notebook.  Note the field values: `variables=(mass)` is a bare symbol and
`expression=relativistic_breit_wigner(mass, mass0, gamma0)` is an
already-evaluated expression. -/
def relativistic_breit_wigner_from_graph (graph : StateTransitionGraph)
    (edge_id : Nat) : DynamicsExpression :=
  let edge_ids := graph.attachedFinalState edge_id
  let final_state_ids := edge_ids.map toString
  let mass := SymExpr.sym ("m_" ++ braced (String.intercalate "+" final_state_ids))
  let particle := graph.edgeProps edge_id
  let mass0 := SymExpr.sym ("m_" ++ braced particle.latex)
  let gamma0 := SymExpr.sym ("\\Gamma_" ++ braced particle.latex)
  { vars := .single mass
    parameters := [mass0, gamma0]
    expression := .expr (relativistic_breit_wigner mass mass0 gamma0) }

/-- The object `bw_decay_f0`, embedded from the composition notebook: a
`DynamicsExpression` whose `variables` is the one-element tuple produced by
`sp.symbols("m_3+4", seq=True)` and whose `expression` is the
`relativistic_breit_wigner` Python function itself. -/
def bw_decay_f0 : DynamicsExpression :=
  { vars := .tuple [.sym "m_3+4"]
    parameters := [.sym "m_f(0)(980)", .sym "\\Gamma_f(0)(980)"]
    expression := .func3 relativistic_breit_wigner }

/-- An indexed symbol such as `K[i, j]`, as produced by subscripting a sympy
`IndexedBase`. -/
structure IndexedSym where
  base : String
  i : Nat
  j : Nat
deriving DecidableEq

/-- The function `create_symbol_matrix`, embedded from report 009:
`symbol = sp.IndexedBase("K"); Matrix([[symbol[i, j] for j in range(n)] for i
in range(n)])`.  The `name` argument is received but never read. -/
def create_symbol_matrix (name : String) (n : Nat) : List (List IndexedSym) :=
  (List.range n).map fun i => (List.range n).map fun j => IndexedSym.mk "K" i j

/-- A store of Python notebook bindings from variable names to expression
graphs, used to state that computing a substituted/derived/generated graph
into one binding leaves the graph held by another binding untouched. -/
def Store := String → Option SymExpr

/-- Executing `dst = op(store[src])`: the only binding written is `dst`. -/
def runOp (store : Store) (op : SymExpr → SymExpr) (src dst : String) : Store :=
  fun name =>
    if name = dst then (store src).map op else store name

/-- Character-list version of "starts with". -/
def listStarts : List Char → List Char → Bool
  | [], _ => true
  | _ :: _, [] => false
  | c :: cs, d :: ds => (c == d) && listStarts cs ds

/-- Does `p` start with `d`? -/
def strStarts (d p : String) : Bool := listStarts d.data p.data

/-- Does `p` end with `suf`? -/
def strEnds (suf p : String) : Bool := listStarts suf.data.reverse p.data.reverse

/-- The `testpaths` entry of `[tool.pytest.ini_options]` in the project configuration. -/
def testpaths : List String := [".pre-commit", "docs"]

/-- The `norecursedirs` entry of `[tool.pytest.ini_options]`. -/
def norecursedirs : List String :=
  [".ipynb_checkpoints", ".virtual_documents", "_build", "docs/adr"]

/-- The notebook and module paths ignored by `addopts`
(`--ignore=docs/adr/001/sympy.ipynb`, `--ignore=docs/conf.py`). -/
def ignoredPaths : List String := ["docs/adr/001/sympy.ipynb", "docs/conf.py"]

/-- The notebook deselected by `addopts` (`-k not docs/report/019.ipynb`). -/
def deselectedPaths : List String := ["docs/report/019.ipynb"]

/-- Is the path a Jupyter notebook file? -/
def isNotebook (p : String) : Bool := strEnds ".ipynb" p

/-- Is the path inside directory `d`? -/
def underDir (d p : String) : Bool := strStarts (d ++ "/") p

/-- The set of notebook paths the pytest configuration actually collects and
runs: notebooks below a test path, not below a `norecursedirs` directory, not
ignored and not deselected. -/
def collected (p : String) : Bool :=
  isNotebook p && testpaths.any (fun d => underDir d p)
    && !(norecursedirs.any fun d => underDir d p)
    && !(ignoredPaths.contains p)
    && !(deselectedPaths.contains p)

/-- The notebook files of the repository that are evidenced by the source
snapshot and by the project configuration itself. -/
def repoNotebooks : List String :=
  ["docs/symbolics.ipynb", "docs/report/009.ipynb", "docs/report/019.ipynb",
   "docs/report/022.ipynb", "docs/adr/001/sympy.ipynb", "docs/adr/002/function.ipynb"]

/-- A notebook as the test tool sees it: an ordered list of code cells, each
of which either raises or not when executed. -/
structure NotebookCell where
  raises : Bool

/-- Modelled from the spec: the external notebook-execution/test tool
(nbmake) "runs each notebook end-to-end and asserts that every cell executes
without raising"; the test passes exactly when no cell raises. -/
def nbmakePasses (cells : List NotebookCell) : Bool :=
  cells.all fun c => !c.raises

/-- The files the build and test configuration instructs tools to write:
`[tool.setuptools_scm] write_to = "version.py"` and the in-place TOML sort of
`pyproject.toml` (`[tool.tomlsort] in_place = true`). -/
def configuredWrites : List String := ["version.py", "pyproject.toml"]

/-- Documentation source files in the sense of the spec: notebooks, markdown
and TOML configuration. -/
def isDocSource (p : String) : Bool :=
  strEnds ".ipynb" p || strEnds ".md" p || strEnds ".toml" p

/-- Produced static pages: everything below the documentation build
directory. -/
def isBuiltPage (p : String) : Bool := underDir "_build" p

/-- The Breit-Wigner expression graph of `docs/symbolics.ipynb`:
`g * m0 * Γ0 / (m0**2 - s - sp.I * Γ0 * m0)`. -/
def breit_wigner_expression : SymExpr :=
  .div (.mul (.mul (.sym "g") (.sym "m0")) (.sym "Gamma0"))
    (SymExpr.sub (SymExpr.sub (.pow (.sym "m0") 2) (.sym "s"))
      (.mul (.mul (.num CC.I) (.sym "Gamma0")) (.sym "m0")))

/-- The substitution `{m0: 0.980, Γ0: 0.06, g: 1}` of `docs/symbolics.ipynb`. -/
def breit_wigner_subst : List (String × SymExpr) :=
  [("m0", .num ⟨49/50, 0⟩), ("Gamma0", .num ⟨3/50, 0⟩), ("g", .num ⟨1, 0⟩)]

theorem occurs_mkAdd (a b : SymExpr) (x : String) :
    (mkAdd a b).occurs x = (a.occurs x || b.occurs x) := by
  cases a <;> cases b <;> simp [mkAdd, SymExpr.occurs]

theorem occurs_mkMul (a b : SymExpr) (x : String) :
    (mkMul a b).occurs x = (a.occurs x || b.occurs x) := by
  cases a <;> cases b <;> simp [mkMul, SymExpr.occurs]

theorem occurs_mkNeg (a : SymExpr) (x : String) :
    (mkNeg a).occurs x = a.occurs x := by
  cases a <;> simp [mkNeg, SymExpr.occurs]

theorem occurs_mkPow (a : SymExpr) (n : Nat) (x : String) :
    (mkPow a n).occurs x = a.occurs x := by
  cases a <;> simp [mkPow, SymExpr.occurs]

theorem occurs_mkDiv (a b : SymExpr) (x : String) :
    (mkDiv a b).occurs x = (a.occurs x || b.occurs x) := by
  cases a <;> cases b <;> simp [mkDiv, SymExpr.occurs]

theorem occurs_collapse (r : SymExpr) (x : String) :
    (collapse r).occurs x = r.occurs x := by
  induction r with
  | sym name => rfl
  | num c => rfl
  | add a b iha ihb => simp [collapse, occurs_mkAdd, SymExpr.occurs, iha, ihb]
  | mul a b iha ihb => simp [collapse, occurs_mkMul, SymExpr.occurs, iha, ihb]
  | neg a iha => simp [collapse, occurs_mkNeg, SymExpr.occurs, iha]
  | pow a n iha => simp [collapse, occurs_mkPow, SymExpr.occurs, iha]
  | div a b iha ihb => simp [collapse, occurs_mkDiv, SymExpr.occurs, iha, ihb]

theorem lookupSym_mem {x : String} {σ : List (String × SymExpr)} {r : SymExpr}
    (h : lookupSym x σ = some r) : (x, r) ∈ σ := by
  induction σ with
  | nil => simp [lookupSym] at h
  | cons p rest ih =>
    obtain ⟨y, v⟩ := p
    by_cases hy : y = x
    · subst hy
      simp [lookupSym] at h
      simp [h]
    · simp [lookupSym, hy] at h
      exact List.mem_cons_of_mem _ (ih h)

theorem lookupSym_isSome_of_mem {x : String} {r : SymExpr}
    {σ : List (String × SymExpr)} (h : (x, r) ∈ σ) : (lookupSym x σ).isSome := by
  induction σ with
  | nil => simp at h
  | cons p rest ih =>
    obtain ⟨y, v⟩ := p
    by_cases hy : y = x
    · subst hy; simp [lookupSym]
    · rcases List.mem_cons.mp h with h1 | h2
      · exact absurd (congrArg Prod.fst h1).symm hy
      · simpa [lookupSym, hy] using ih h2

theorem subs_occurs_false {σ : List (String × SymExpr)} {y : String}
    (hrep : ∀ p ∈ σ, (p.2).occurs y = false)
    (hy : (lookupSym y σ).isSome) (e : SymExpr) : (subs e σ).occurs y = false := by
  induction e with
  | sym name =>
    by_cases hname : name = y
    · subst hname
      cases hl : lookupSym name σ with
      | none => rw [hl] at hy; simp at hy
      | some r =>
        simp only [subs, hl, occurs_collapse]
        exact hrep (name, r) (lookupSym_mem hl)
    · cases hl : lookupSym name σ with
      | none => simpa [subs, hl, SymExpr.occurs] using hname
      | some r =>
        simp only [subs, hl, occurs_collapse]
        exact hrep (name, r) (lookupSym_mem hl)
  | num c => rfl
  | add a b iha ihb => simp [subs, occurs_mkAdd, iha, ihb]
  | mul a b iha ihb => simp [subs, occurs_mkMul, iha, ihb]
  | neg a iha => simp [subs, occurs_mkNeg, iha]
  | pow a n iha => simp [subs, occurs_mkPow, iha]
  | div a b iha ihb => simp [subs, occurs_mkDiv, iha, ihb]

/-- Every constant-only subtree is a single numeric node. -/
def CollapsedAll (e : SymExpr) : Prop :=
  ∀ t ∈ e.subtrees, t.noSymbols = true → t.isNumNode = true

theorem self_mem_subtrees (e : SymExpr) : e ∈ e.subtrees := by
  cases e <;> simp [SymExpr.subtrees]

theorem isNumNode_iff (e : SymExpr) : e.isNumNode = true ↔ ∃ c, e = .num c := by
  cases e <;> simp [SymExpr.isNumNode]

theorem mkAdd_cases (a b : SymExpr) :
    (∃ x y, a = .num x ∧ b = .num y ∧ mkAdd a b = .num (x.add y)) ∨
      mkAdd a b = .add a b := by
  cases a <;> cases b <;> simp [mkAdd]

theorem mkMul_cases (a b : SymExpr) :
    (∃ x y, a = .num x ∧ b = .num y ∧ mkMul a b = .num (x.mul y)) ∨
      mkMul a b = .mul a b := by
  cases a <;> cases b <;> simp [mkMul]

theorem mkDiv_cases (a b : SymExpr) :
    (∃ x y, a = .num x ∧ b = .num y ∧ mkDiv a b = .num (x.div y)) ∨
      mkDiv a b = .div a b := by
  cases a <;> cases b <;> simp [mkDiv]

theorem mkNeg_cases (a : SymExpr) :
    (∃ x, a = .num x ∧ mkNeg a = .num x.neg) ∨ mkNeg a = .neg a := by
  cases a <;> simp [mkNeg]

theorem mkPow_cases (a : SymExpr) (n : Nat) :
    (∃ x, a = .num x ∧ mkPow a n = .num (x.pow n)) ∨ mkPow a n = .pow a n := by
  cases a <;> simp [mkPow]

theorem collapsedAll_num (c : CC) : CollapsedAll (.num c) := by
  intro t ht
  simp [SymExpr.subtrees] at ht
  subst ht
  simp [SymExpr.isNumNode]

theorem collapsedAll_sym (name : String) : CollapsedAll (.sym name) := by
  intro t ht
  simp [SymExpr.subtrees] at ht
  subst ht
  simp [SymExpr.noSymbols]

theorem collapsedAll_mkAdd {a b : SymExpr} (ha : CollapsedAll a)
    (hb : CollapsedAll b) : CollapsedAll (mkAdd a b) := by
  rcases mkAdd_cases a b with ⟨x, y, _, _, heq⟩ | heq
  · rw [heq]; exact collapsedAll_num _
  · rw [heq]
    intro t ht hsym
    simp only [SymExpr.subtrees, List.mem_cons, List.mem_append] at ht
    rcases ht with rfl | ht | ht
    · simp only [SymExpr.noSymbols, Bool.and_eq_true] at hsym
      obtain ⟨c, rfl⟩ :=
        (isNumNode_iff a).mp (ha a (self_mem_subtrees a) hsym.1)
      obtain ⟨d, rfl⟩ :=
        (isNumNode_iff b).mp (hb b (self_mem_subtrees b) hsym.2)
      simp [mkAdd] at heq
    · exact ha t ht hsym
    · exact hb t ht hsym

theorem collapsedAll_mkMul {a b : SymExpr} (ha : CollapsedAll a)
    (hb : CollapsedAll b) : CollapsedAll (mkMul a b) := by
  rcases mkMul_cases a b with ⟨x, y, _, _, heq⟩ | heq
  · rw [heq]; exact collapsedAll_num _
  · rw [heq]
    intro t ht hsym
    simp only [SymExpr.subtrees, List.mem_cons, List.mem_append] at ht
    rcases ht with rfl | ht | ht
    · simp only [SymExpr.noSymbols, Bool.and_eq_true] at hsym
      obtain ⟨c, rfl⟩ :=
        (isNumNode_iff a).mp (ha a (self_mem_subtrees a) hsym.1)
      obtain ⟨d, rfl⟩ :=
        (isNumNode_iff b).mp (hb b (self_mem_subtrees b) hsym.2)
      simp [mkMul] at heq
    · exact ha t ht hsym
    · exact hb t ht hsym

theorem collapsedAll_mkDiv {a b : SymExpr} (ha : CollapsedAll a)
    (hb : CollapsedAll b) : CollapsedAll (mkDiv a b) := by
  rcases mkDiv_cases a b with ⟨x, y, _, _, heq⟩ | heq
  · rw [heq]; exact collapsedAll_num _
  · rw [heq]
    intro t ht hsym
    simp only [SymExpr.subtrees, List.mem_cons, List.mem_append] at ht
    rcases ht with rfl | ht | ht
    · simp only [SymExpr.noSymbols, Bool.and_eq_true] at hsym
      obtain ⟨c, rfl⟩ :=
        (isNumNode_iff a).mp (ha a (self_mem_subtrees a) hsym.1)
      obtain ⟨d, rfl⟩ :=
        (isNumNode_iff b).mp (hb b (self_mem_subtrees b) hsym.2)
      simp [mkDiv] at heq
    · exact ha t ht hsym
    · exact hb t ht hsym

theorem collapsedAll_mkNeg {a : SymExpr} (ha : CollapsedAll a) :
    CollapsedAll (mkNeg a) := by
  rcases mkNeg_cases a with ⟨x, _, heq⟩ | heq
  · rw [heq]; exact collapsedAll_num _
  · rw [heq]
    intro t ht hsym
    simp only [SymExpr.subtrees, List.mem_cons] at ht
    rcases ht with rfl | ht
    · simp only [SymExpr.noSymbols] at hsym
      obtain ⟨c, rfl⟩ :=
        (isNumNode_iff a).mp (ha a (self_mem_subtrees a) hsym)
      simp [mkNeg] at heq
    · exact ha t ht hsym

theorem collapsedAll_mkPow {a : SymExpr} (n : Nat) (ha : CollapsedAll a) :
    CollapsedAll (mkPow a n) := by
  rcases mkPow_cases a n with ⟨x, _, heq⟩ | heq
  · rw [heq]; exact collapsedAll_num _
  · rw [heq]
    intro t ht hsym
    simp only [SymExpr.subtrees, List.mem_cons] at ht
    rcases ht with rfl | ht
    · simp only [SymExpr.noSymbols] at hsym
      obtain ⟨c, rfl⟩ :=
        (isNumNode_iff a).mp (ha a (self_mem_subtrees a) hsym)
      simp [mkPow] at heq
    · exact ha t ht hsym

theorem collapsedAll_collapse (r : SymExpr) : CollapsedAll (collapse r) := by
  induction r with
  | sym name => exact collapsedAll_sym name
  | num c => exact collapsedAll_num c
  | add a b iha ihb => exact collapsedAll_mkAdd iha ihb
  | mul a b iha ihb => exact collapsedAll_mkMul iha ihb
  | neg a iha => exact collapsedAll_mkNeg iha
  | pow a n iha => exact collapsedAll_mkPow n iha
  | div a b iha ihb => exact collapsedAll_mkDiv iha ihb

theorem collapsedAll_subs (e : SymExpr) (σ : List (String × SymExpr)) :
    CollapsedAll (subs e σ) := by
  induction e with
  | sym name =>
    cases hl : lookupSym name σ with
    | none => simpa [subs, hl] using collapsedAll_sym name
    | some r => simpa [subs, hl] using collapsedAll_collapse r
  | num c => exact collapsedAll_num c
  | add a b iha ihb => exact collapsedAll_mkAdd iha ihb
  | mul a b iha ihb => exact collapsedAll_mkMul iha ihb
  | neg a iha => exact collapsedAll_mkNeg iha
  | pow a n iha => exact collapsedAll_mkPow n iha
  | div a b iha ihb => exact collapsedAll_mkDiv iha ihb

/-- C1 (amended): for every expression graph and every substitution map
whose replacement sub-graphs contain no designated symbol (in particular for
replacement by constants), the substitution operation returns a graph in
which no designated symbol occurs free; and, unconditionally, every
constant-only subtree of the result is a single numeric node. -/
theorem subs_removes_symbols_and_collapses (e : SymExpr)
    (σ : List (String × SymExpr))
    (h : ∀ p ∈ σ, ∀ q ∈ σ, (p.2).occurs q.1 = false) :
    (∀ p ∈ σ, (subs e σ).occurs p.1 = false) ∧
      ∀ t ∈ (subs e σ).subtrees, t.noSymbols = true → t.isNumNode = true := by
  constructor
  · intro p hp
    exact subs_occurs_false (fun q hq => h q hq p hp)
      (lookupSym_isSome_of_mem hp) e
  · exact collapsedAll_subs e σ

/-- Witness for C1: the Breit-Wigner substitution `{m0: 0.980, Γ0: 0.06,
g: 1}` of `docs/symbolics.ipynb` satisfies the hypothesis, and the theorem
yields the conclusions for it. -/
theorem subs_removes_symbols_and_collapses_witness :
    (∀ p ∈ breit_wigner_subst, ∀ q ∈ breit_wigner_subst,
        (p.2).occurs q.1 = false) ∧
      ((∀ p ∈ breit_wigner_subst,
          (subs breit_wigner_expression breit_wigner_subst).occurs p.1 = false) ∧
        ∀ t ∈ (subs breit_wigner_expression breit_wigner_subst).subtrees,
          t.noSymbols = true → t.isNumNode = true) :=
  ⟨by decide, subs_removes_symbols_and_collapses breit_wigner_expression
    breit_wigner_subst (by decide)⟩

/-- Counterexample for C1 as stated: substituting the sub-graph `x + 1` for
the designated symbol `x` leaves `x` free in the result, so a designated
symbol can survive substitution. -/
theorem subs_can_keep_designated_symbol :
    (subs (.sym "x") [("x", .add (.sym "x") (.num CC.one))]).occurs "x" = true := by
  decide

theorem zipWith_getElem?_some {f : CC → CC → CC} {a b : CC} :
    ∀ {as bs : List CC} {i : Nat}, as[i]? = some a → bs[i]? = some b →
      (List.zipWith f as bs)[i]? = some (f a b) := by
  intro as
  induction as with
  | nil => intro bs i ha; simp at ha
  | cons x xs ih =>
    intro bs i ha hb
    cases bs with
    | nil => simp at hb
    | cons y ys =>
      cases i with
      | zero =>
        simp only [List.getElem?_cons_zero, Option.some_inj] at ha hb
        simp [List.zipWith, ha, hb]
      | succ j =>
        simp only [List.getElem?_cons_succ] at ha hb
        simpa [List.zipWith] using ih ha hb

theorem map_getElem?_some {f : CC → CC} {a : CC} {as : List CC} {i : Nat}
    (ha : as[i]? = some a) : (as.map f)[i]? = some (f a) := by
  rw [List.getElem?_map, ha]
  rfl

theorem lensOK_split {a b : SymExpr} {inputs : String → List CC} {n : Nat}
    (h : ((a.symList ++ b.symList).all
      fun name => (inputs name).length == n) = true) :
    lensOK a inputs n = true ∧ lensOK b inputs n = true := by
  simpa [lensOK, List.all_append] using h

theorem runArr_length {inputs : String → List CC} {n : Nat} :
    ∀ {e : SymExpr}, lensOK e inputs n = true →
      (runArr inputs n (lambdify e)).length = n := by
  intro e
  induction e with
  | sym name =>
    intro h
    simp only [lensOK, SymExpr.symList, List.all_cons, List.all_nil,
      Bool.and_true] at h
    have hn : (inputs name).length = n := by simpa using h
    simpa [runArr, lambdify] using hn
  | num c => intro _; simp [runArr, lambdify]
  | add a b iha ihb =>
    intro h
    obtain ⟨h1, h2⟩ := lensOK_split h
    simp [runArr, lambdify, List.length_zipWith, iha h1, ihb h2]
  | mul a b iha ihb =>
    intro h
    obtain ⟨h1, h2⟩ := lensOK_split h
    simp [runArr, lambdify, List.length_zipWith, iha h1, ihb h2]
  | neg a iha =>
    intro h
    simp [runArr, lambdify, iha h]
  | pow a k iha =>
    intro h
    simp [runArr, lambdify, iha h]
  | div a b iha ihb =>
    intro h
    obtain ⟨h1, h2⟩ := lensOK_split h
    simp [runArr, lambdify, List.length_zipWith, iha h1, ihb h2]

theorem runArr_getElem {inputs : String → List CC} {n i : Nat} (hi : i < n) :
    ∀ {e : SymExpr}, lensOK e inputs n = true →
      (runArr inputs n (lambdify e))[i]? = some (evalExpr e (envAt inputs i)) := by
  intro e
  induction e with
  | sym name =>
    intro h
    simp only [lensOK, SymExpr.symList, List.all_cons, List.all_nil,
      Bool.and_true] at h
    have hlen : (inputs name).length = n := by simpa using h
    have hi' : i < (inputs name).length := by omega
    simp [runArr, lambdify, evalExpr, envAt, List.getElem?_eq_getElem hi']
  | num c =>
    intro _
    simp [runArr, lambdify, evalExpr, List.getElem?_replicate, hi]
  | add a b iha ihb =>
    intro h
    obtain ⟨h1, h2⟩ := lensOK_split h
    simpa [runArr, lambdify, evalExpr] using
      zipWith_getElem?_some (iha h1) (ihb h2)
  | mul a b iha ihb =>
    intro h
    obtain ⟨h1, h2⟩ := lensOK_split h
    simpa [runArr, lambdify, evalExpr] using
      zipWith_getElem?_some (iha h1) (ihb h2)
  | neg a iha =>
    intro h
    simpa [runArr, lambdify, evalExpr] using map_getElem?_some (iha h)
  | pow a k iha =>
    intro h
    simpa [runArr, lambdify, evalExpr] using map_getElem?_some (iha h)
  | div a b iha ihb =>
    intro h
    obtain ⟨h1, h2⟩ := lensOK_split h
    simpa [runArr, lambdify, evalExpr] using
      zipWith_getElem?_some (iha h1) (ihb h2)

/-- C2: for every expression graph, the code emitted by the code generator,
run on array-valued inputs of a common length, returns an array of that
length whose `i`-th element is the symbolic formula evaluated at the `i`-th
input elements. -/
theorem create_function_elementwise (e : SymExpr) (inputs : String → List CC)
    (n i : Nat) (hlen : lensOK e inputs n = true) (hi : i < n) :
    (runArr inputs n (lambdify e)).length = n ∧
      (runArr inputs n (lambdify e))[i]? = some (evalExpr e (envAt inputs i)) :=
  ⟨runArr_length hlen, runArr_getElem hi hlen⟩

/-- Concrete array inputs for the Breit-Wigner expression: two events. -/
def bwInputs : String → List CC :=
  fun name => if name = "s" then [⟨1, 0⟩, ⟨4, 0⟩] else [⟨1, 0⟩, ⟨2, 0⟩]

/-- Witness for C2: the Breit-Wigner graph of `docs/symbolics.ipynb` with
two-event input arrays. -/
theorem create_function_elementwise_witness :
    lensOK breit_wigner_expression bwInputs 2 = true ∧ 0 < 2 ∧
      ((runArr bwInputs 2 (lambdify breit_wigner_expression)).length = 2 ∧
        (runArr bwInputs 2 (lambdify breit_wigner_expression))[0]? =
          some (evalExpr breit_wigner_expression (envAt bwInputs 0))) :=
  ⟨by decide, by decide,
    create_function_elementwise breit_wigner_expression bwInputs 2 0
      (by decide) (by decide)⟩

theorem evalExpr_mkAdd (a b : SymExpr) (env : String → CC) :
    evalExpr (mkAdd a b) env = (evalExpr a env).add (evalExpr b env) := by
  cases a <;> cases b <;> simp [mkAdd, evalExpr]

theorem evalExpr_mkMul (a b : SymExpr) (env : String → CC) :
    evalExpr (mkMul a b) env = (evalExpr a env).mul (evalExpr b env) := by
  cases a <;> cases b <;> simp [mkMul, evalExpr]

theorem evalExpr_mkNeg (a : SymExpr) (env : String → CC) :
    evalExpr (mkNeg a) env = (evalExpr a env).neg := by
  cases a <;> simp [mkNeg, evalExpr]

theorem evalExpr_mkPow (a : SymExpr) (n : Nat) (env : String → CC) :
    evalExpr (mkPow a n) env = (evalExpr a env).pow n := by
  cases a <;> simp [mkPow, evalExpr]

theorem evalExpr_mkDiv (a b : SymExpr) (env : String → CC) :
    evalExpr (mkDiv a b) env = (evalExpr a env).div (evalExpr b env) := by
  cases a <;> cases b <;> simp [mkDiv, evalExpr]

theorem lookupSym_constSubst (x : String) (ps : List (String × CC)) :
    lookupSym x (constSubst ps) = (lookupConst x ps).map SymExpr.num := by
  induction ps with
  | nil => rfl
  | cons p rest ih =>
    obtain ⟨y, c⟩ := p
    by_cases hy : y = x <;>
      simp [constSubst, lookupSym, lookupConst, hy] <;>
      simpa [constSubst] using ih

theorem evalExpr_subs_const (e : SymExpr) (ps : List (String × CC))
    (env : String → CC) :
    evalExpr (subs e (constSubst ps)) env
      = evalExpr e (fun name => (lookupConst name ps).getD (env name)) := by
  induction e with
  | sym name =>
    cases hl : lookupConst name ps with
    | none => simp [subs, lookupSym_constSubst, hl, evalExpr]
    | some c => simp [subs, lookupSym_constSubst, hl, collapse, evalExpr]
  | num c => rfl
  | add a b iha ihb => simp [subs, evalExpr_mkAdd, evalExpr, iha, ihb]
  | mul a b iha ihb => simp [subs, evalExpr_mkMul, evalExpr, iha, ihb]
  | neg a iha => simp [subs, evalExpr_mkNeg, evalExpr, iha]
  | pow a n iha => simp [subs, evalExpr_mkPow, evalExpr, iha]
  | div a b iha ihb => simp [subs, evalExpr_mkDiv, evalExpr, iha, ihb]

/-- C4: substituting a parameter valuation before code generation commutes
with code generation; the function generated from the parameter-substituted
graph, run on the variable input arrays, returns exactly the array returned
by the function generated from the unsubstituted graph run on the variable
inputs together with the broadcast parameter values. -/
theorem subs_commutes_with_codegen (e : SymExpr) (ps : List (String × CC))
    (inputs : String → List CC) (n : Nat)
    (h1 : lensOK (subs e (constSubst ps)) inputs n = true)
    (h2 : lensOK e (withParams ps inputs n) n = true) :
    runArr inputs n (lambdify (subs e (constSubst ps)))
      = runArr (withParams ps inputs n) n (lambdify e) := by
  apply List.ext_getElem?
  intro i
  by_cases hi : i < n
  · rw [runArr_getElem hi h1, runArr_getElem hi h2, evalExpr_subs_const]
    have henv : (fun name => (lookupConst name ps).getD (envAt inputs i name))
        = envAt (withParams ps inputs n) i := by
      funext name
      cases hl : lookupConst name ps with
      | none => simp [envAt, withParams, hl]
      | some c => simp [envAt, withParams, hl, List.getElem?_replicate, hi]
    rw [henv]
  · have l1 := runArr_length h1
    have l2 := runArr_length h2
    rw [List.getElem?_eq_none (by omega), List.getElem?_eq_none (by omega)]

/-- The parameter valuation `{m0: 0.980, Γ0: 0.06, g: 1}` as numeric values. -/
def bwParamValues : List (String × CC) :=
  [("m0", ⟨49/50, 0⟩), ("Gamma0", ⟨3/50, 0⟩), ("g", ⟨1, 0⟩)]

/-- Witness for C4: for the Breit-Wigner graph, fixing the parameters first
and generating code agrees with generating code first and passing the
parameter values as broadcast arguments, on a two-event input array. -/
theorem subs_commutes_with_codegen_witness :
    lensOK (subs breit_wigner_expression (constSubst bwParamValues)) bwInputs 2
        = true ∧
      lensOK breit_wigner_expression (withParams bwParamValues bwInputs 2) 2
        = true ∧
      runArr bwInputs 2
          (lambdify (subs breit_wigner_expression (constSubst bwParamValues)))
        = runArr (withParams bwParamValues bwInputs 2) 2
            (lambdify breit_wigner_expression) :=
  ⟨by decide, by decide,
    subs_commutes_with_codegen breit_wigner_expression bwParamValues bwInputs 2
      (by decide) (by decide)⟩

theorem toComplex_one : CC.one.toComplex = 1 := by
  simp [CC.one, CC.toComplex]

theorem toComplex_zero : CC.zero.toComplex = 0 := by
  simp [CC.zero, CC.toComplex]

theorem toComplex_natCast (n : Nat) : CC.toComplex ⟨(n : ℚ), 0⟩ = (n : ℂ) := by
  simp [CC.toComplex]

theorem derivative_hasDerivAt (x : String) (env : String → ℂ) :
    ∀ e : SymExpr, DenomsNonzero env e →
      HasDerivAt (fun t => evalC e (Function.update env x t))
        (evalC (derivative x e) env) (env x) := by
  have hself : Function.update env x (env x) = env := Function.update_eq_self x env
  intro e
  induction e with
  | sym name =>
    intro _
    by_cases hname : name = x
    · subst hname
      have hfun : (fun t => evalC (.sym name) (Function.update env name t))
          = fun t : ℂ => t := by
        funext t
        simp [evalC, Function.update_same]
      rw [hfun]
      simpa [derivative, evalC, toComplex_one] using hasDerivAt_id' (env name)
    · have hfun : (fun t => evalC (.sym name) (Function.update env x t))
          = fun _ : ℂ => env name := by
        funext t
        simp [evalC, Function.update_noteq hname]
      rw [hfun]
      simpa [derivative, hname, evalC, toComplex_zero] using
        hasDerivAt_const (env x) (env name)
  | num c =>
    intro _
    simpa [derivative, evalC, toComplex_zero] using
      hasDerivAt_const (env x) c.toComplex
  | add a b iha ihb =>
    intro hden
    obtain ⟨h1, h2⟩ := hden
    simpa [evalC, derivative] using (iha h1).add (ihb h2)
  | mul a b iha ihb =>
    intro hden
    obtain ⟨h1, h2⟩ := hden
    simpa [evalC, derivative, hself] using (iha h1).mul (ihb h2)
  | neg a iha =>
    intro hden
    simpa [evalC, derivative] using (iha hden).neg
  | pow a n iha =>
    intro hden
    have h := (iha hden).pow n
    simpa [evalC, derivative, hself, toComplex_natCast, mul_assoc] using h
  | div a b iha ihb =>
    intro hden
    obtain ⟨h1, h2, hb0⟩ := hden
    have hb0' : evalC b (Function.update env x (env x)) ≠ 0 := by
      rw [hself]; exact hb0
    have h := HasDerivAt.div (iha h1) (ihb h2) hb0'
    simpa [evalC, derivative, SymExpr.sub, hself, sub_eq_add_neg] using h

/-- C5: for every differentiable expression graph, an ordered variable list
and an index `k`, the `k`-th graph produced by the differentiator represents
the partial derivative of the formula with respect to the `k`-th variable:
at every assignment at which the graph is differentiable (denominators
nonzero), the formula as a function of that variable has the value of the
`k`-th derivative graph as derivative.  The statement applies to every
graph, in particular to the derivative graphs themselves, which gives the
second- and higher-order derivatives by recursion. -/
theorem differentiate_correct (e : SymExpr) (vars : List String) (k : Nat)
    (x : String) (d : SymExpr) (env : String → ℂ)
    (hx : vars[k]? = some x) (hd : (differentiate e vars)[k]? = some d)
    (hden : DenomsNonzero env e) :
    HasDerivAt (fun t => evalC e (Function.update env x t))
      (evalC d env) (env x) := by
  have hmap : (differentiate e vars)[k]? = (vars[k]?).map fun y => derivative y e :=
    List.getElem?_map _ vars k
  rw [hmap, hx] at hd
  have hd' : derivative x e = d := Option.some.inj hd
  subst hd'
  exact derivative_hasDerivAt x env e hden

/-- The squared symbol `x * x`, a concrete graph for the C5 witness. -/
def gradExample : SymExpr := .mul (.sym "x") (.sym "x")

/-- Its first derivative graph with respect to `x`. -/
def gradExampleD1 : SymExpr := derivative "x" gradExample

/-- Its second derivative graph with respect to `x`. -/
def gradExampleD2 : SymExpr := derivative "x" gradExampleD1

/-- A concrete assignment for the C5 witness. -/
noncomputable def envTwo : String → ℂ := fun _ => 2

/-- Witness for C5: for `x * x` at `x = 2`, the differentiator's output
graph is its partial derivative, and differentiating the derivative graph
again gives the second-order derivative. -/
theorem differentiate_correct_witness :
    ("x" :: List.nil)[0]? = some "x" ∧
      (differentiate gradExample ["x"])[0]? = some gradExampleD1 ∧
      DenomsNonzero envTwo gradExample ∧
      HasDerivAt (fun t => evalC gradExample (Function.update envTwo "x" t))
        (evalC gradExampleD1 envTwo) (envTwo "x") ∧
      HasDerivAt (fun t => evalC gradExampleD1 (Function.update envTwo "x" t))
        (evalC gradExampleD2 envTwo) (envTwo "x") :=
  ⟨rfl, rfl, ⟨trivial, trivial⟩,
    differentiate_correct gradExample ["x"] 0 "x" gradExampleD1 envTwo rfl rfl
      ⟨trivial, trivial⟩,
    differentiate_correct gradExampleD1 ["x"] 0 "x" gradExampleD2 envTwo rfl rfl
      ⟨⟨trivial, trivial⟩, trivial, trivial⟩⟩

/-- C3: computing any graph operation (substitution, differentiation, code
generation composed with a graph transform, or building a composite) into a
new notebook binding leaves the binding of the original graph unchanged, and
no field of a constructed frozen `DynamicsExpression` can be reassigned:
attribute assignment raises `FrozenInstanceError`. -/
theorem expression_graphs_immutable (store : Store) (op : SymExpr → SymExpr)
    (src dst : String) (d : DynamicsExpression) (f : DynField) (v : PyVal)
    (h : dst ≠ src) :
    runOp store op src dst src = store src ∧
      d.setattr f v = Except.error PyError.frozenInstanceError := by
  constructor
  · have hsd : ¬src = dst := fun hh => h hh.symm
    simp [runOp, hsd]
  · rfl

/-- The notebook store of `docs/symbolics.ipynb` right after the cell that
builds `expression`. -/
def symbolicsStore : Store :=
  fun name => if name = "expression" then some breit_wigner_expression else none

/-- Witness for C3: running `substituted_expr = expression.subs({...})` on
the symbolics-notebook store leaves `expression` bound to the original
Breit-Wigner graph, and no field of `bw_decay_f0` can be reassigned. -/
theorem expression_graphs_immutable_witness :
    "substituted_expr" ≠ "expression" ∧
      (runOp symbolicsStore (fun e => subs e breit_wigner_subst) "expression"
          "substituted_expr" "expression" = symbolicsStore "expression" ∧
        bw_decay_f0.setattr DynField.expressionField (PyVal.expr (.sym "m"))
          = Except.error PyError.frozenInstanceError) :=
  ⟨by decide,
    expression_graphs_immutable symbolicsStore
      (fun e => subs e breit_wigner_subst) "expression" "substituted_expr"
      bw_decay_f0 DynField.expressionField (PyVal.expr (.sym "m")) (by decide)⟩

/-- Counterexample for C6 as stated: `docs/adr/002/function.ipynb` is a
notebook of the repository, yet the pytest configuration does not collect it
(`docs/adr` is listed in `norecursedirs`), so not every notebook of the
repository is tested. -/
theorem notebook_not_collected :
    "docs/adr/002/function.ipynb" ∈ repoNotebooks ∧
      collected "docs/adr/002/function.ipynb" = false := by
  decide

/-- C6 (amended): the test configuration collects a repository notebook if
and only if it is not below the `norecursedirs` directory `docs/adr`, not
ignored (`docs/adr/001/sympy.ipynb`) and not deselected
(`docs/report/019.ipynb`); and the test on a collected notebook passes
exactly when no cell raises. -/
theorem pytest_runs_collected_notebooks (p : String) (cells : List NotebookCell)
    (hp : p ∈ repoNotebooks) :
    (collected p = true ↔
        ¬underDir "docs/adr" p = true ∧ p ∉ ignoredPaths ∧ p ∉ deselectedPaths) ∧
      (nbmakePasses cells = true ↔ ∀ c ∈ cells, c.raises = false) := by
  constructor
  · simp only [repoNotebooks, List.mem_cons, List.not_mem_nil, or_false] at hp
    rcases hp with rfl | rfl | rfl | rfl | rfl | rfl <;> decide
  · simp [nbmakePasses, List.all_eq_true]

/-- Witness for C6: `docs/symbolics.ipynb` is a repository notebook; the
equivalences hold for it and for a two-cell notebook that raises nowhere. -/
theorem pytest_runs_collected_notebooks_witness :
    "docs/symbolics.ipynb" ∈ repoNotebooks ∧
      ((collected "docs/symbolics.ipynb" = true ↔
          ¬underDir "docs/adr" "docs/symbolics.ipynb" = true ∧
            "docs/symbolics.ipynb" ∉ ignoredPaths ∧
            "docs/symbolics.ipynb" ∉ deselectedPaths) ∧
        (nbmakePasses [⟨false⟩, ⟨false⟩] = true ↔
          ∀ c ∈ [NotebookCell.mk false, NotebookCell.mk false],
            c.raises = false)) :=
  ⟨by decide,
    pytest_runs_collected_notebooks "docs/symbolics.ipynb"
      [⟨false⟩, ⟨false⟩] (by decide)⟩

/-- Counterexample for C7 as stated: the build configuration instructs
setuptools_scm to write `version.py`, which is neither a documentation
source file nor a produced static page. -/
theorem version_file_outside_doc_sources :
    "version.py" ∈ configuredWrites ∧
      (isDocSource "version.py" || isBuiltPage "version.py") = false := by
  decide

/-- C7 (amended): every file the build or test configuration writes is a
documentation source file (notebook, markdown, TOML) or a produced static
page, except for the `version.py` file that `[tool.setuptools_scm]`
`write_to` instructs the build to write. -/
theorem build_writes_documentation_only (p : String) (hp : p ∈ configuredWrites) :
    p = "version.py" ∨ (isDocSource p || isBuiltPage p) = true := by
  simp only [configuredWrites, List.mem_cons, List.not_mem_nil, or_false] at hp
  rcases hp with rfl | rfl
  · exact Or.inl rfl
  · exact Or.inr (by decide)

/-- Witness for C7: the other configured write target, `pyproject.toml`, is
itself a documentation source (TOML configuration). -/
theorem build_writes_documentation_only_witness :
    "pyproject.toml" ∈ configuredWrites ∧
      ("pyproject.toml" = "version.py" ∨
        (isDocSource "pyproject.toml" || isBuiltPage "pyproject.toml") = true) :=
  ⟨by decide, build_writes_documentation_only "pyproject.toml" (by decide)⟩

/-- C8: the class-based and the function-based formulation of the
Breit-Wigner dynamics are equivalent: constructing
`RelativisticBreitWigner(mass, mass0, gamma0)`, whose `eval` fires on
construction, yields exactly the expression graph returned by
`relativistic_breit_wigner(mass, mass0, gamma0)`. -/
theorem breit_wigner_class_equals_function (mass mass0 gamma0 : SymExpr) :
    RelativisticBreitWigner.make mass mass0 gamma0
      = relativistic_breit_wigner mass mass0 gamma0 := rfl

/-- The `(i, j)` entry of a symbol matrix. -/
def matrixEntry (m : List (List IndexedSym)) (i j : Nat) : Option IndexedSym :=
  (m[i]?).bind fun row => row[j]?

/-- C9: `create_symbol_matrix` ignores its `name` argument: its result is
the same for any two names, and every `(i, j)` entry is the indexed symbol
`K[i, j]` built from the hard-coded base `"K"`. -/
theorem create_symbol_matrix_ignores_name (name₁ name₂ : String) (n i j : Nat)
    (hi : i < n) (hj : j < n) :
    create_symbol_matrix name₁ n = create_symbol_matrix name₂ n ∧
      matrixEntry (create_symbol_matrix name₁ n) i j
        = some (IndexedSym.mk "K" i j) := by
  refine ⟨rfl, ?_⟩
  have hrow : (create_symbol_matrix name₁ n)[i]?
      = some ((List.range n).map fun j => IndexedSym.mk "K" i j) := by
    rw [create_symbol_matrix, List.getElem?_map]
    simp [List.getElem?_range, hi]
  have hcol : ((List.range n).map fun j => IndexedSym.mk "K" i j)[j]?
      = some (IndexedSym.mk "K" i j) := by
    rw [List.getElem?_map]
    simp [List.getElem?_range, hj]
  simp [matrixEntry, hrow, hcol]

/-- Witness for C9: two distinct names, a 2-by-2 matrix and its `(0, 1)`
entry. -/
theorem create_symbol_matrix_ignores_name_witness :
    0 < 2 ∧ 1 < 2 ∧
      (create_symbol_matrix "A" 2 = create_symbol_matrix "B" 2 ∧
        matrixEntry (create_symbol_matrix "A" 2) 0 1
          = some (IndexedSym.mk "K" 0 1)) :=
  ⟨by decide, by decide,
    create_symbol_matrix_ignores_name "A" "B" 2 0 1 (by decide) (by decide)⟩

/-- Does the `expression` attribute hold a callable? -/
def PyVal.isCallable : PyVal → Bool
  | .expr _ => false
  | .func3 _ => true

/-- Does the `variables` attribute hold an actual tuple? -/
def VarsField.isTuple : VarsField → Bool
  | .tuple _ => true
  | .single _ => false

theorem substitute_isOk_eq_canCall (d : DynamicsExpression) :
    d.substitute.isOk = d.canCall := by
  obtain ⟨vf, params, pe⟩ := d
  cases vf with
  | single s => rfl
  | tuple vs =>
    cases pe with
    | expr e => rfl
    | func3 fn =>
      show (match vs ++ params with
        | [a, b, c] => Except.ok (fn a b c)
        | _ => Except.error PyError.typeError).isOk
          = ((vs ++ params).length == 3)
      rcases vs ++ params with _ | ⟨a, _ | ⟨b, _ | ⟨c, _ | ⟨e, rest⟩⟩⟩⟩ <;> rfl

/-- C10: for every `StateTransitionGraph` and `edge_id`, the
`DynamicsExpression` built by `relativistic_breit_wigner_from_graph` holds
an already-evaluated expression (not a callable) in `expression` and a bare
symbol (not a tuple) in `variables`, so its `substitute()` raises
`TypeError`; in general `substitute()` returns normally exactly when it has
a tuple of arguments and a callable `expression` of matching arity, as in
`bw_decay_f0`, whose `expression` is the `relativistic_breit_wigner`
function and whose `substitute()` returns the evaluated Breit-Wigner. -/
theorem from_graph_substitute_raises (graph : StateTransitionGraph)
    (edge_id : Nat) (d : DynamicsExpression) :
    ((relativistic_breit_wigner_from_graph graph edge_id).expression).isCallable
        = false ∧
      ((relativistic_breit_wigner_from_graph graph edge_id).vars).isTuple
        = false ∧
      (relativistic_breit_wigner_from_graph graph edge_id).substitute
        = Except.error PyError.typeError ∧
      d.substitute.isOk = d.canCall ∧
      bw_decay_f0.substitute
        = Except.ok (relativistic_breit_wigner (.sym "m_3+4")
            (.sym "m_f(0)(980)") (.sym "\\Gamma_f(0)(980)")) :=
  ⟨rfl, rfl, rfl, substitute_isOk_eq_canCall d, rfl⟩
